import Mathlib

/-!
Shallow embedding of the texar repository's Transformer decoder
(`texar/modules/decoders/transformer_decoders.py`) and of the paired text
data pipeline (`texar/data/data/paired_text_data.py`), with theorems about
the embedded code.

Per-batch-item tensors are lists of rational-valued vectors.  The batch
axis is a list of per-item values; all source operations are data-parallel
across the batch, the only cross-item coupling being the greedy loop's
stopping condition, which the embedding keeps at the loop level.

External collaborators that are not among the two source files (the
attention kernel, layer normalization, the feed-forward block, the
sinusoidal position embedder, `tf.reduce_logsumexp`, the beam-search
module, `MonoTextData.make_vocab`, the `Vocab` class) are modelled from the
specification; each such definition carries a doc comment saying so.
-/

namespace Texar

/-- A per-position vector (the channel or vocabulary axis). -/
abbrev Vec := List ℤ

/-- A per-batch-item sequence of vectors, shape `[length, depth]`. -/
abbrev Seq := List Vec

/-- An additive attention bias, shape-compatible with an attention score
matrix. -/
abbrev Bias := List Vec

def vec_add (a b : Vec) : Vec := List.zipWith (· + ·) a b

def seq_add (a b : Seq) : Seq := List.zipWith vec_add a b

def scale_vec (c : ℤ) (v : Vec) : Vec := v.map (fun a => a * c)

def dot (a b : Vec) : ℤ := (List.zipWith (· * ·) a b).sum

/-- `tf.argmax` over the last axis: index of the first maximal entry.
`bi`/`bv` are the best index and value seen so far, `i` the index of the
head of the remaining list. -/
def argmax_from (l : List ℤ) (i bi : Nat) (bv : ℤ) : Nat :=
  match l with
  | [] => bi
  | x :: xs => if bv < x then argmax_from xs (i+1) i x else argmax_from xs (i+1) bi bv

/-- `tf.argmax` of a vector (0 on an empty vector). -/
def argmax (l : List ℤ) : Nat :=
  match l with
  | [] => 0
  | x :: xs => argmax_from xs 1 0 x

/-- Modelled from the spec: the external PositionSignal component
(`SinusoidsPositionEmbedder`, not among the source files) produces one
per-position vector of the given channel depth for each position below the
given length.  Sinusoid values are transcendental; they are modelled by an
executable surrogate (the position index replicated across channels).  The
claims depend only on the table having one row per position. -/
def position_embedder (len chans : Nat) : Seq :=
  (List.range len).map (fun (i : Nat) => List.replicate chans (i : ℤ))

/-- Modelled from the spec: external per-position layer normalization
(`texar.core.layers.layer_normalize`, not among the source files).  The
contract the source relies on is that it is applied independently per
position (length preserving); it is modelled as the identity on each
position. -/
def layer_normalize (x : Seq) : Seq := x.map (fun v => v)

/-- Modelled from the spec: `tf.layers.dropout` — identity at inference
time, randomized rescaling during training, shape preserving in both
modes.  Modelled as the identity; the claims depend only on shapes and on
inference-time behavior. -/
def dropout (x : Seq) : Seq := x.map (fun v => v)

/-- Modelled from the spec: the external FeedForward sub-block
(`FeedForwardNetwork`, not among the source files) — a per-position
two-layer projection with non-linearity, modelled by an executable
per-position surrogate. -/
def poswise_feedforward (x : Seq) : Seq := x.map (fun v => v.map (fun a => a + 1))

/-- Modelled from the spec: `tf.reduce_logsumexp` over the vocabulary axis
(a TensorFlow primitive, not part of the repository).  The true value
log(sum(exp(l))) is transcendental; it is modelled by an executable
surrogate normalizer (the running maximum).  The claims depend only on the
normalizer being a single scalar subtracted uniformly from all logits. -/
def logsumexp (l : Vec) : ℤ := l.foldl max 0

/-- `log_probs = logits - tf.reduce_logsumexp(logits, axis=-1, keep_dims=True)`
(source line 393). -/
def log_probs_of (logits : Vec) : Vec := logits.map (fun x => x - logsumexp logits)

/-- Modelled from the spec: `attention_bias_lower_triangle` from the
external `texar.utils.transformer_attentions` — the additive causal mask,
zero at allowed positions and a huge negative value at positions attending
to the future. -/
def attention_bias_lower_triangle (len : Nat) : Bias :=
  (List.range len).map (fun i =>
    (List.range len).map (fun j => if j ≤ i then 0 else -(10^9 : ℤ)))

/-- The per-layer incremental cache record created by `_init_cache`:
self-attention keys/values and memory (cross) attention keys/values. -/
structure LayerCache where
  self_keys : Seq
  self_values : Seq
  memory_keys : Seq
  memory_values : Seq
deriving DecidableEq

/-- The decoding-session cache created by `_init_cache`: the encoder output
(`memory`), the cross-attention bias, and one `LayerCache` per block. -/
structure Cache where
  memory : Seq
  encoder_decoder_attention_bias : Bias
  layers : List LayerCache
deriving DecidableEq

/-- Modelled from the spec: the external AttentionPrimitive
(`texar.utils.transformer_attentions.multihead_attention`, not among the
source files).  Contract used by the source: one attended output vector
per query; when an incremental cache is supplied (self-attention during
incremental decoding) the current step's keys/values — computed from the
queries — are appended to the cache's stored self-attention sequences
before attending over the extended sequences.  The numeric attention
kernel itself is a primitive and is modelled by the executable surrogate
`attend`; the claims depend only on shapes, cache evolution and
determinism, never on the kernel's numeric values. -/
def attend (q : Vec) (_keys : Seq) (values : Seq) (_bias : Option Bias) : Vec :=
  values.foldl vec_add q

/-- Modelled from the spec: see `attend`. -/
def multihead_attention (queries : Seq) (memory : Option Seq)
    (memory_attention_bias : Option Bias) (cache : Option LayerCache) :
    Seq × Option LayerCache :=
  match cache with
  | some lc =>
    let keys := lc.self_keys ++ queries
    let values := lc.self_values ++ queries
    (queries.map (fun q => attend q keys values memory_attention_bias),
     some { lc with self_keys := keys, self_values := values })
  | none =>
    match memory with
    | some m => (queries.map (fun q => attend q m m memory_attention_bias), none)
    | none => (queries.map (fun q => attend q queries queries memory_attention_bias), none)

/-- The decoder hyperparameters (`TransformerDecoder.default_hparams`). -/
structure HParams where
  sampling_method : String
  multiply_embedding_mode : String
  share_embed_and_transform : Bool
  transform_with_bias : Bool
  num_heads : Nat
  num_blocks : Nat
  maximum_decode_length : Nat
  embedding_dropout : ℚ
  attention_dropout : ℚ
  residual_dropout : ℚ
  eos_idx : Nat
  bos_idx : Nat
  beam_width : Nat
  alpha : ℤ
deriving DecidableEq

/-- `TransformerDecoder.default_hparams` (source lines 92-113). -/
def default_hparams : HParams where
  sampling_method := "argmax"
  multiply_embedding_mode := "sqrt_depth"
  share_embed_and_transform := true
  transform_with_bias := true
  num_heads := 8
  num_blocks := 6
  maximum_decode_length := 10
  embedding_dropout := 1/10
  attention_dropout := 1/10
  residual_dropout := 1/10
  eos_idx := 2
  bos_idx := 1
  beam_width := 1
  alpha := 0

/-- The decoder module: hyperparameters, the referenced embedding matrix
`[vocab_size, channels]`, the tied-projection bias, the weights of the
alternative independent projection, and the randomness oracle used by
`sampling_method = sample` (`tf.multinomial` draws from an external
randomness source; it is modelled as an oracle function of step and
logits). -/
structure Decoder where
  hparams : HParams
  embedding : List Vec
  affine_bias : Vec
  dense_weights : List Vec
  dense_bias : Vec
  sampler : Nat → Vec → Nat

/-- `self._vocab_size = self._embedding.get_shape().as_list()[0]`. -/
def vocab_size (d : Decoder) : Nat := d.embedding.length

/-- `channels = shape_list(self._embedding)[-1]`. -/
def channels (d : Decoder) : Nat := (d.embedding.headD []).length

/-- `tf.nn.embedding_lookup(self._embedding, tokens)` for one token. -/
def embedding_lookup (emb : List Vec) (tok : Nat) : Vec := emb.getD tok []

/-- The embedding scale factor `channels ** 0.5` from the source.  A real
square root is irrational in general and has no exact rational model; it
is modelled by the natural-number square root, which is exact for
perfect-square channel counts.  No claim depends on the numeric value of
the factor, only on whether the scaling happens at all. -/
def sqrt_depth_factor (c : Nat) : ℤ :=
  ((((List.range (c + 1)).filter (fun k => k * k ≤ c)).getLastD 0 : Nat) : ℤ)

/-- Python `assert cond`: succeeds with the ambient value when `cond` is
truthy, raises `AssertionError` otherwise. -/
def python_assert (cond : Bool) (a : α) : Except String α :=
  if cond then .ok a else .error "AssertionError"

/-- Python truthiness of the `NotImplementedError` class object: a class
object is truthy, so `assert NotImplementedError` (source line 138) never
fires. -/
def notimplementederror_is_truthy : Bool := true

/-- One block of `_self_attention_stack` (source lines 264-307):
pre-normalized self-attention with residual, optional pre-normalized
cross-attention against the encoder output with residual, pre-normalized
feed-forward with residual. -/
def decoder_layer (encoder_output : Option Seq)
    (decoder_self_attention_bias : Option Bias)
    (encoder_decoder_attention_bias : Option Bias)
    (x : Seq) (layer_cache : Option LayerCache) : Seq × Option LayerCache :=
  let r := multihead_attention (layer_normalize x) none decoder_self_attention_bias layer_cache
  let x := seq_add x (dropout r.1)
  let x := match encoder_output with
    | some m =>
      let r2 := multihead_attention (layer_normalize x) (some m) encoder_decoder_attention_bias none
      seq_add x (dropout r2.1)
    | none => x
  let x := seq_add x (dropout (poswise_feedforward (layer_normalize x)))
  (x, r.2)

/-- The `for i in range(num_blocks)` loop of `_self_attention_stack` when a
cache is supplied: each block reads and updates its own `LayerCache`. -/
def run_layers_cached (encoder_output : Option Seq)
    (decoder_self_attention_bias : Option Bias)
    (encoder_decoder_attention_bias : Option Bias) :
    List LayerCache → Seq → Seq × List LayerCache
  | [], x => (x, [])
  | lc :: rest, x =>
    let r := decoder_layer encoder_output decoder_self_attention_bias
      encoder_decoder_attention_bias x (some lc)
    let rr := run_layers_cached encoder_output decoder_self_attention_bias
      encoder_decoder_attention_bias rest r.1
    (rr.1, (r.2.getD lc) :: rr.2)

/-- The `for i in range(num_blocks)` loop of `_self_attention_stack`
without a cache (training mode). -/
def run_layers_nocache (encoder_output : Option Seq)
    (decoder_self_attention_bias : Option Bias)
    (encoder_decoder_attention_bias : Option Bias) :
    Nat → Seq → Seq
  | 0, x => x
  | n+1, x =>
    run_layers_nocache encoder_output decoder_self_attention_bias
      encoder_decoder_attention_bias n
      (decoder_layer encoder_output decoder_self_attention_bias
        encoder_decoder_attention_bias x none).1

/-- `TransformerDecoder._self_attention_stack` (source lines 244-309).
With a cache, the cross-attention bias is read from the cache; without
one, the source asserts that `decoder_self_attention_bias` is present. -/
def self_attention_stack (d : Decoder) (inputs : Seq)
    (encoder_output : Option Seq)
    (decoder_self_attention_bias : Option Bias)
    (encoder_decoder_attention_bias : Option Bias)
    (cache : Option Cache) : Except String (Seq × Option Cache) :=
  let inputs := dropout inputs
  match cache with
  | some c =>
    let r := run_layers_cached encoder_output decoder_self_attention_bias
      (some c.encoder_decoder_attention_bias) c.layers inputs
    .ok (layer_normalize r.1, some { c with layers := r.2 })
  | none =>
    match decoder_self_attention_bias with
    | none => .error "AssertionError: decoder_self_attention_bias is None"
    | some _ =>
      .ok (layer_normalize (run_layers_nocache encoder_output
        decoder_self_attention_bias encoder_decoder_attention_bias
        d.hparams.num_blocks inputs), none)

/-- The per-position projection to vocabulary logits when
`share_embed_and_transform` is set: multiply by the transposed embedding
matrix, optionally adding `affine_bias` (source lines 319-326). -/
def outputs_to_logits (d : Decoder) (o : Vec) : Vec :=
  let logits := d.embedding.map (fun row => dot o row)
  if d.hparams.transform_with_bias then vec_add logits d.affine_bias else logits

/-- The per-position independent `tf.layers.Dense(vocab_size)` projection
used when `share_embed_and_transform` is false (source lines 329-332). -/
def dense_apply (d : Decoder) (o : Vec) : Vec :=
  let logits := d.dense_weights.map (fun row => dot o row)
  if d.hparams.transform_with_bias then vec_add logits d.dense_bias else logits

/-- `self.output_layer` as built by `_build_output_layer` (source lines
311-332), applied per position. -/
def output_layer (d : Decoder) (outputs : Seq) : Seq :=
  if d.hparams.share_embed_and_transform then outputs.map (outputs_to_logits d)
  else outputs.map (dense_apply d)

/-- `TransformerDecoder._init_cache` (source lines 354-368): records the
encoder output and the cross-attention bias and gives every block empty
self/memory key and value sequences. -/
def init_cache (d : Decoder) (memory : Seq) (encoder_decoder_attention_bias : Bias) : Cache where
  memory := memory
  encoder_decoder_attention_bias := encoder_decoder_attention_bias
  layers := List.replicate d.hparams.num_blocks ⟨[], [], [], []⟩

/-- `_symbols_to_logits_fn._impl` (source lines 132-153): keep only the
most recent token, embed it, scale it when `multiply_embedding_mode` is
`sqrt_depth` (for any other mode the source's `assert NotImplementedError`
asserts a truthy class object, never fires, and the scaling is silently
skipped), add the position signal row for `step`, run the cached stack
against the cache's memory, project the single position to logits. -/
def symbols_to_logits_impl (d : Decoder) (timing_signal : Seq)
    (ids : List Nat) (step : Nat) (cache : Cache) : Except String (Vec × Cache) :=
  let last_ids := [ids.getLastD 0]
  let inputs := last_ids.map (embedding_lookup d.embedding)
  match (if d.hparams.multiply_embedding_mode = "sqrt_depth" then
           .ok (inputs.map (scale_vec (sqrt_depth_factor (channels d))))
         else
           python_assert notimplementederror_is_truthy inputs : Except String Seq) with
  | .error e => .error e
  | .ok inputs =>
    let inputs := seq_add inputs [timing_signal.getD step []]
    match self_attention_stack d inputs (some cache.memory) none none (some cache) with
    | .error e => .error e
    | .ok r =>
      let logits := output_layer d r.1
      .ok (logits.headD [], r.2.getD cache)

/-- The training branch of `TransformerDecoder._build` (source lines
177-208), per batch item: causal bias for the full length, embed and scale
the whole target sequence, add position embeddings, run the stack with no
cache, project to logits, take per-position argmax as predictions. -/
def build_train (d : Decoder) (encoder_output : Seq)
    (encoder_decoder_attention_bias : Bias) (decoder_input : List Nat) :
    Except String (Seq × List Nat) :=
  let decoder_self_attention_bias := attention_bias_lower_triangle decoder_input.length
  let target_inputs := decoder_input.map (embedding_lookup d.embedding)
  let target_inputs := if d.hparams.multiply_embedding_mode = "sqrt_depth" then
      target_inputs.map (scale_vec (sqrt_depth_factor (channels d)))
    else target_inputs
  let pos_embeds := position_embedder target_inputs.length (channels d)
  let inputs := seq_add target_inputs pos_embeds
  match self_attention_stack d inputs (some encoder_output)
      (some decoder_self_attention_bias) (some encoder_decoder_attention_bias) none with
  | .error e => .error e
  | .ok r =>
    let logits := output_layer d r.1
    .ok (logits, logits.map argmax)

/-- `next_id = tf.argmax(...)` or `tf.multinomial(...)` according to
`sampling_method` (source lines 396-399).  `tf.multinomial` draws from an
external randomness source, modelled by the decoder's `sampler` oracle.
For any other value of `sampling_method` the graph is malformed at run
time; this surfaces as an error. -/
def next_token (d : Decoder) (step : Nat) (logits : Vec) : Except String Nat :=
  if d.hparams.sampling_method = "argmax" then .ok (argmax logits)
  else if d.hparams.sampling_method = "sample" then .ok (d.sampler step logits)
  else .error "unsupported sampling_method"

/-- The per-batch-item slice of the greedy loop state: finished flag, the
`[batch, 1]` column holding the most recent token, the decoded ids so far,
the item's cache, and the accumulated log-probability. -/
structure ItemState where
  finished : Bool
  next_id : List Nat
  decoded : List Nat
  cache : Cache
  log_prob : ℤ
deriving DecidableEq

/-- The greedy loop state (`loop_vars` of source line 417). -/
structure GreedyState where
  step : Nat
  items : List ItemState
deriving DecidableEq

/-- Effectful `List.mapM` specialized to `Except`, written as an explicit
recursion: the vectorized per-batch tensor operations applied item by
item. -/
def mapME (f : α → Except ε β) : List α → Except ε (List β)
  | [] => .ok []
  | a :: as =>
    match f a with
    | .error e => .error e
    | .ok b =>
      match mapME f as with
      | .error e => .error e
      | .ok bs => .ok (b :: bs)

/-- One batch item's share of `_greedy_decode._body` (source lines
390-409): next-token logits via the step function, log-softmax, token
choice, sticky finished flag (`finished |= tf.equal(next_id, eos)`),
unconditional log-probability accumulation, append the token. -/
def greedy_step_item (d : Decoder) (timing_signal : Seq) (eos step : Nat)
    (it : ItemState) : Except String ItemState :=
  match symbols_to_logits_impl d timing_signal it.next_id step it.cache with
  | .error e => .error e
  | .ok r =>
    match next_token d step r.1 with
    | .error e => .error e
    | .ok next =>
      let finished := it.finished || (next == eos)
      let log_prob := it.log_prob + (log_probs_of r.1).getD next 0
      .ok ⟨finished, [next], it.decoded ++ [next], r.2, log_prob⟩

/-- `_greedy_decode._body`: all batch items step together; the step
counter advances by one. -/
def greedy_body (d : Decoder) (timing_signal : Seq) (eos : Nat)
    (s : GreedyState) : Except String GreedyState :=
  match mapME (greedy_step_item d timing_signal eos s.step) s.items with
  | .error e => .error e
  | .ok items => .ok ⟨s.step + 1, items⟩

/-- `_greedy_decode.is_not_finished` (source lines 411-412):
`(i < decode_length) & ¬ tf.reduce_all(finished)`. -/
def greedy_cond (decode_length : Nat) (s : GreedyState) : Bool :=
  decide (s.step < decode_length) && !(s.items.all (fun it => it.finished))

/-- `tf.while_loop`: the condition is evaluated before each iteration; the
body runs only while it holds.  The fuel argument only bounds the
recursion; every use below supplies enough fuel that it never runs out
while the condition still holds. -/
def whileLoopE (cond : σ → Bool) (body : σ → Except ε σ) : Nat → σ → Except ε σ
  | 0, s => .ok s
  | fuel+1, s =>
    if cond s then
      match body s with
      | .error e => .error e
      | .ok s' => whileLoopE cond body fuel s'
    else .ok s

/-- Iterated loop body (no condition): the state after `n` completed
decoding steps. -/
def iterateE (body : σ → Except ε σ) : Nat → σ → Except ε σ
  | 0, s => .ok s
  | n+1, s =>
    match body s with
    | .error e => .error e
    | .ok s' => iterateE body n s'

/-- The initial greedy loop state per item (source lines 377-384):
unfinished, `next_id` the start token, nothing decoded, a fresh cache from
`_init_cache`, zero log-probability. -/
def greedy_init_items (d : Decoder) (start_tokens : List Nat)
    (memory : List Seq) (encoder_decoder_attention_bias : List Bias) : List ItemState :=
  ((start_tokens.zip memory).zip encoder_decoder_attention_bias).map
    (fun p => ⟨false, [p.1.1], [], init_cache d p.1.2 p.2, 0⟩)

/-- `TransformerDecoder._greedy_decode` (source lines 370-430): run the
loop, then `expand_dims` both outputs along a singleton hypothesis axis. -/
def greedy_decode (d : Decoder) (start_tokens : List Nat) (eos decode_length : Nat)
    (memory : List Seq) (encoder_decoder_attention_bias : List Bias) :
    Except String (List (List (List Nat)) × List (List ℤ)) :=
  let timing_signal := position_embedder (decode_length + 1) (channels d)
  let init : GreedyState :=
    ⟨0, greedy_init_items d start_tokens memory encoder_decoder_attention_bias⟩
  match whileLoopE (greedy_cond decode_length) (greedy_body d timing_signal eos)
      (decode_length + 1) init with
  | .error e => .error e
  | .ok s =>
    .ok (s.items.map (fun it => [it.decoded]), s.items.map (fun it => [it.log_prob]))

/-- The start tokens of the inference branch of `_build` (source line
213): the source fills the batch with the constant `1` and never reads the
`bos_idx` hyperparameter. -/
def infer_start_tokens (_hp : HParams) (batch_size : Nat) : List Nat :=
  List.replicate batch_size 1

/-- Modelled from the spec: the beam-search length penalty
`((5 + length) / 6) ** alpha` (`texar.utils.beam_search`, not among the
source files).  A rational power is transcendental in general; it is
modelled exactly for integer `alpha` via an integer power, which covers
`alpha = 0` (penalty disabled), the only value the claims exercise. -/
def length_penalty (alpha : ℤ) (len : Nat) : ℤ := ((5 + (len : ℤ)) / 6) ^ alpha.toNat

/-- A beam-search hypothesis: token sequence (with the leading start
token), cumulative log-probability, and the hypothesis's cache. -/
structure BeamHyp where
  seq : List Nat
  log_prob : ℤ
  cache : Cache
deriving DecidableEq

/-- Modelled from the spec: a hypothesis's length-penalized score. -/
def beam_score (alpha : ℤ) (h : BeamHyp) : ℤ :=
  h.log_prob / length_penalty alpha h.seq.length

/-- Keep the (up to) `k` best elements by score, best first, earliest
element first on ties (matching `tf.argmax` tie-breaking). -/
def topK (score : α → ℤ) : Nat → List α → List α
  | 0, _ => []
  | k+1, l =>
    match l[argmax (l.map score)]? with
    | none => []
    | some b => b :: topK score k (l.eraseIdx (argmax (l.map score)))

/-- Modelled from the spec: the beam-search loop state — live hypotheses
and retired (finished) hypotheses, per original batch item. -/
structure BeamState where
  step : Nat
  alive : List BeamHyp
  finishedHyps : List BeamHyp
deriving DecidableEq

/-- Modelled from the spec: expand one live hypothesis by all vocabulary
continuations; the step function is run once per hypothesis and all
continuations share its updated cache. -/
def beam_expand_hyp (d : Decoder) (timing_signal : Seq) (step : Nat)
    (h : BeamHyp) : Except String (List BeamHyp) :=
  match symbols_to_logits_impl d timing_signal h.seq step h.cache with
  | .error e => .error e
  | .ok r =>
    .ok ((List.range (vocab_size d)).map (fun v =>
      ⟨h.seq ++ [v], h.log_prob + (log_probs_of r.1).getD v 0, r.2⟩))

/-- Modelled from the spec: one beam-search step — expand every live
hypothesis by all vocabulary continuations with accumulated
log-probabilities, keep the top `beam_width` by length-penalized score,
retire the kept hypotheses that end with the end token (they are excluded
from further expansion but retained with their final score). -/
def beam_body (d : Decoder) (timing_signal : Seq) (eos beam_width : Nat)
    (alpha : ℤ) (s : BeamState) : Except String BeamState :=
  match mapME (beam_expand_hyp d timing_signal s.step) s.alive with
  | .error e => .error e
  | .ok expansions =>
    let kept := topK (beam_score alpha) beam_width expansions.flatten
    let part := kept.partition (fun h => h.seq.getLastD 0 == eos)
    .ok ⟨s.step + 1, part.2, s.finishedHyps ++ part.1⟩

/-- Modelled from the spec: beam search stops when `decode_length` is
reached or all beams are finished (no live hypothesis remains). -/
def beam_cond (decode_length : Nat) (s : BeamState) : Bool :=
  decide (s.step < decode_length) && !s.alive.isEmpty

/-- Modelled from the spec: the beam-search output — the finished
hypotheses (or, when none finished, the live ones) ranked by penalized
score best first, keeping `beam_width` of them, each stripped of the
leading start token (`outputs[:, :, 1:]`, source line 453); the reported
quantities are the sequences' log-probabilities. -/
def beam_extract (beam_width : Nat) (alpha : ℤ) (s : BeamState) :
    List (List Nat) × List ℤ :=
  let pool := if s.finishedHyps.isEmpty then s.alive else s.finishedHyps
  let top := topK (beam_score alpha) beam_width pool
  (top.map (fun h => h.seq.drop 1), top.map (fun h => h.log_prob))

/-- Modelled from the spec: `_beam_decode` for one batch item — initial
hypothesis is the start token with zero log-probability and a fresh cache
from `_init_cache`. -/
def beam_decode_item (d : Decoder) (start_token eos decode_length beam_width : Nat)
    (alpha : ℤ) (memory : Seq) (encoder_decoder_attention_bias : Bias) :
    Except String (List (List Nat) × List ℤ) :=
  let cache := init_cache d memory encoder_decoder_attention_bias
  let timing_signal := position_embedder (decode_length + 1) (channels d)
  match whileLoopE (beam_cond decode_length)
      (beam_body d timing_signal eos beam_width alpha) (decode_length + 1)
      ⟨0, [⟨[start_token], 0, cache⟩], []⟩ with
  | .error e => .error e
  | .ok s => .ok (beam_extract beam_width alpha s)

/-- Modelled from the spec: `TransformerDecoder._beam_decode` (source
lines 432-454) over a batch; batch items are processed independently. -/
def beam_decode_batch (d : Decoder) (start_tokens : List Nat)
    (eos decode_length beam_width : Nat) (alpha : ℤ)
    (memory : List Seq) (encoder_decoder_attention_bias : List Bias) :
    Except String (List (List (List Nat)) × List (List ℤ)) :=
  match mapME (fun p => beam_decode_item d p.1.1 eos decode_length beam_width alpha p.1.2 p.2)
      ((start_tokens.zip memory).zip encoder_decoder_attention_bias) with
  | .error e => .error e
  | .ok rs => .ok (rs.map (fun r => r.1), rs.map (fun r => r.2))

/-- The inference branch of `TransformerDecoder._build` (source lines
209-242): batch size from the attention bias, start tokens filled with
the constant 1, greedy path when `beam_width <= 1`, beam path otherwise. -/
def build_infer (d : Decoder) (encoder_output : List Seq)
    (encoder_decoder_attention_bias : List Bias) :
    Except String (List (List (List Nat)) × List (List ℤ)) :=
  let batch_size := encoder_decoder_attention_bias.length
  let start_tokens := infer_start_tokens d.hparams batch_size
  if d.hparams.beam_width ≤ 1 then
    greedy_decode d start_tokens d.hparams.eos_idx d.hparams.maximum_decode_length
      encoder_output encoder_decoder_attention_bias
  else
    beam_decode_batch d start_tokens d.hparams.eos_idx
      d.hparams.maximum_decode_length d.hparams.beam_width d.hparams.alpha
      encoder_output encoder_decoder_attention_bias

/-- Well-formedness of a decoder's weights: a non-empty vocabulary, and
projection weights whose vocabulary axis matches the embedding matrix. -/
def well_formed (d : Decoder) : Prop :=
  0 < d.embedding.length ∧
  (d.hparams.share_embed_and_transform = true →
    d.hparams.transform_with_bias = true →
    d.affine_bias.length = d.embedding.length) ∧
  (d.hparams.share_embed_and_transform = false →
    d.dense_weights.length = d.embedding.length ∧
    (d.hparams.transform_with_bias = true →
      d.dense_bias.length = d.embedding.length))

instance instDecEqExcept [DecidableEq ε] [DecidableEq α] : DecidableEq (Except ε α) :=
  fun x y =>
    match x, y with
    | .error a, .error b =>
      if h : a = b then .isTrue (by rw [h])
      else .isFalse (by intro hc; cases hc; exact h rfl)
    | .ok a, .ok b =>
      if h : a = b then .isTrue (by rw [h])
      else .isFalse (by intro hc; cases hc; exact h rfl)
    | .error _, .ok _ => .isFalse (by intro hc; cases hc)
    | .ok _, .error _ => .isFalse (by intro hc; cases hc)

/-- The per-side dataset hyperparameters of `PairedTextData` that the
vocabulary and embedding construction reads. -/
structure DatasetHParams where
  vocab_file : String
  bos_token : Option String
  eos_token : Option String
  vocab_share : Bool
  embedding_init_share : Bool
  processing_share : Bool
  data_name : String
deriving DecidableEq

/-- Modelled from the spec: `texar.data.constants.BOS_TOKEN` (not among
the source files). -/
def bos_token_default : String := "<BOS>"

/-- Modelled from the spec: `texar.data.constants.EOS_TOKEN` (not among
the source files). -/
def eos_token_default : String := "<EOS>"

/-- Modelled from the spec: `texar.core.utils.default_string` (not among
the source files) — the given string when set and non-empty, otherwise
the default. -/
def default_string (s : Option String) (dflt : String) : String :=
  match s with
  | some str => if str ≠ "" then str else dflt
  | none => dflt

/-- A `texar.data.Vocab` instance.  Constructing a `Vocab` allocates a
fresh Python object; object identity is modelled by a unique identifier
drawn from a counter threaded through the computation, so two vocabs are
the same object exactly when their `uid`s are equal. -/
structure Vocab where
  vocab_file : String
  bos_token : String
  eos_token : String
  uid : Nat
deriving DecidableEq

/-- Modelled from the spec: the `Vocab(vocab_file, bos_token=...,
eos_token=...)` constructor (not among the source files) — reads the named
vocab file and allocates a fresh instance. -/
def vocab_new (ctr : Nat) (file bos eos : String) : Vocab × Nat :=
  (⟨file, bos, eos, ctr⟩, ctr + 1)

/-- Modelled from the spec: `MonoTextData.make_vocab` (not among the
source files) — builds a `Vocab` from the hyperparameters' vocab file with
the hyperparameters' bos/eos tokens, defaulted when unset. -/
def mono_make_vocab (ctr : Nat) (hp : DatasetHParams) : Vocab × Nat :=
  vocab_new ctr hp.vocab_file (default_string hp.bos_token bos_token_default)
    (default_string hp.eos_token eos_token_default)

/-- The resolved target bos token of `PairedTextData.make_vocab` (source
lines 92-99): the source side's token under `processing_share`, else the
target side's, defaulted when unset. -/
def resolved_tgt_bos (src_hparams tgt_hparams : DatasetHParams) : String :=
  default_string
    (if tgt_hparams.processing_share then src_hparams.bos_token else tgt_hparams.bos_token)
    bos_token_default

/-- The resolved target eos token of `PairedTextData.make_vocab` (source
lines 92-101). -/
def resolved_tgt_eos (src_hparams tgt_hparams : DatasetHParams) : String :=
  default_string
    (if tgt_hparams.processing_share then src_hparams.eos_token else tgt_hparams.eos_token)
    eos_token_default

/-- `PairedTextData.make_vocab` (source lines 77-115): build the source
vocab; under `vocab_share`, alias it as the target vocab when the resolved
target bos/eos tokens match its own, else build a distinct `Vocab` from
the source vocab file with the target's tokens; without `vocab_share`,
build the target vocab from the target hyperparameters. -/
def make_vocab (ctr : Nat) (src_hparams tgt_hparams : DatasetHParams) :
    (Vocab × Vocab) × Nat :=
  let r := mono_make_vocab ctr src_hparams
  let src_vocab := r.1
  let ctr := r.2
  let tgt_bos_token := resolved_tgt_bos src_hparams tgt_hparams
  let tgt_eos_token := resolved_tgt_eos src_hparams tgt_hparams
  if tgt_hparams.vocab_share then
    if tgt_bos_token = src_vocab.bos_token ∧ tgt_eos_token = src_vocab.eos_token then
      ((src_vocab, src_vocab), ctr)
    else
      let r2 := vocab_new ctr src_hparams.vocab_file tgt_bos_token tgt_eos_token
      ((src_vocab, r2.1), r2.2)
  else
    let r2 := vocab_new ctr tgt_hparams.vocab_file tgt_bos_token tgt_eos_token
    ((src_vocab, r2.1), r2.2)

/-- The construction stages of `PairedTextData._make_data`, in source
order. -/
inductive DataStage
  | vocab_made
  | embedding_made
  | dataset_made
  | dataset_processed
  | batched
  | prefetched
deriving DecidableEq

/-- The hyperparameters of `PairedTextData` read by `_make_data`. -/
structure PairedHParams where
  source_dataset : DatasetHParams
  target_dataset : DatasetHParams
deriving DecidableEq

/-- `PairedTextData._make_data` (source lines 212-253), modelled as the
ordered list of construction stages it completes together with the error
interrupting it, if any: vocabularies are built first; then, when the
target dataset requests `embedding_init_share` without `vocab_share`, a
`ValueError` is raised; only otherwise are the embeddings, the dataset
(`_make_dataset`), the processed dataset, the batching and the prefetching
built.  The external helpers are represented by the stage they complete,
which is what the error-ordering claim needs. -/
def make_data (hp : PairedHParams) : List DataStage × Option String :=
  let tgt_hparams := hp.target_dataset
  if !tgt_hparams.vocab_share && tgt_hparams.embedding_init_share then
    ([.vocab_made],
     some "ValueError: embedding_init can be shared only when vocab is shared")
  else
    ([.vocab_made, .embedding_made, .dataset_made, .dataset_processed,
      .batched, .prefetched], none)

/-- `PairedTextData.__init__` (source lines 63-66) runs `_make_data`. -/
def paired_text_data_construct (hp : PairedHParams) : List DataStage × Option String :=
  make_data hp

/-! ### Shape lemmas for the decoder stack -/

lemma layer_normalize_length (x : Seq) : (layer_normalize x).length = x.length :=
  List.length_map x _

lemma dropout_length (x : Seq) : (dropout x).length = x.length :=
  List.length_map x _

lemma poswise_feedforward_length (x : Seq) : (poswise_feedforward x).length = x.length :=
  List.length_map x _

lemma seq_add_length (a b : Seq) : (seq_add a b).length = min a.length b.length :=
  List.length_zipWith _ a b

lemma multihead_attention_fst_length (q : Seq) (m : Option Seq) (bias : Option Bias)
    (c : Option LayerCache) : (multihead_attention q m bias c).1.length = q.length := by
  cases c <;> cases m <;> simp [multihead_attention]

lemma decoder_layer_fst_length (eo : Option Seq) (dsab edab : Option Bias) (x : Seq)
    (lc : Option LayerCache) : (decoder_layer eo dsab edab x lc).1.length = x.length := by
  cases eo <;>
    simp [decoder_layer, seq_add_length, multihead_attention_fst_length,
      dropout_length, poswise_feedforward_length, layer_normalize_length]

lemma decoder_layer_cache_eq (eo : Option Seq) (dsab edab : Option Bias) (x : Seq)
    (lc : LayerCache) :
    (decoder_layer eo dsab edab x (some lc)).2 =
      some { lc with self_keys := lc.self_keys ++ layer_normalize x,
                     self_values := lc.self_values ++ layer_normalize x } := by
  cases eo <;> rfl

lemma run_layers_cached_spec (eo : Option Seq) (dsab edab : Option Bias) :
    ∀ (lcs : List LayerCache) (x : Seq),
      (run_layers_cached eo dsab edab lcs x).1.length = x.length ∧
      List.Forall₂ (fun lc lc' =>
          lc'.self_keys.length = lc.self_keys.length + x.length ∧
          lc'.self_values.length = lc.self_values.length + x.length)
        lcs (run_layers_cached eo dsab edab lcs x).2
  | [], x => ⟨rfl, List.Forall₂.nil⟩
  | lc :: rest, x => by
    have hlen := decoder_layer_fst_length eo dsab edab x (some lc)
    have ih := run_layers_cached_spec eo dsab edab rest
      (decoder_layer eo dsab edab x (some lc)).1
    rw [hlen] at ih
    refine ⟨?_, ?_⟩
    · simpa [run_layers_cached] using ih.1
    · simp only [run_layers_cached, decoder_layer_cache_eq, Option.getD_some]
      exact List.Forall₂.cons
        (by simp [List.length_append, layer_normalize_length]) ih.2

lemma run_layers_nocache_length (eo : Option Seq) (dsab edab : Option Bias) :
    ∀ (n : Nat) (x : Seq), (run_layers_nocache eo dsab edab n x).length = x.length
  | 0, _ => rfl
  | n+1, x => by
    rw [run_layers_nocache, run_layers_nocache_length eo dsab edab n,
      decoder_layer_fst_length]

lemma output_layer_length (d : Decoder) (outputs : Seq) :
    (output_layer d outputs).length = outputs.length := by
  unfold output_layer
  split <;> exact List.length_map outputs _

/-! ### The cached stack always succeeds; the uncached one demands a bias -/

lemma self_attention_stack_cached (d : Decoder) (inputs : Seq) (eo : Option Seq)
    (dsab edab : Option Bias) (c : Cache) :
    self_attention_stack d inputs eo dsab edab (some c) =
      .ok (layer_normalize
            (run_layers_cached eo dsab (some c.encoder_decoder_attention_bias)
              c.layers (dropout inputs)).1,
           some { c with layers :=
              (run_layers_cached eo dsab (some c.encoder_decoder_attention_bias)
                c.layers (dropout inputs)).2 }) := rfl

/-! ### The incremental step function: explicit value and cache evolution -/

lemma symbols_to_logits_impl_eq (d : Decoder) (tm : Seq) (ids : List Nat)
    (st : Nat) (c : Cache) :
    symbols_to_logits_impl d tm ids st c =
      .ok ((output_layer d (layer_normalize
              (run_layers_cached (some c.memory) none
                (some c.encoder_decoder_attention_bias) c.layers
                (dropout (seq_add
                  (if d.hparams.multiply_embedding_mode = "sqrt_depth" then
                    ([ids.getLastD 0].map (embedding_lookup d.embedding)).map
                      (scale_vec (sqrt_depth_factor (channels d)))
                  else [ids.getLastD 0].map (embedding_lookup d.embedding))
                  [tm.getD st []]))).1)).headD [],
            { c with layers :=
              (run_layers_cached (some c.memory) none
                (some c.encoder_decoder_attention_bias) c.layers
                (dropout (seq_add
                  (if d.hparams.multiply_embedding_mode = "sqrt_depth" then
                    ([ids.getLastD 0].map (embedding_lookup d.embedding)).map
                      (scale_vec (sqrt_depth_factor (channels d)))
                  else [ids.getLastD 0].map (embedding_lookup d.embedding))
                  [tm.getD st []]))).2 }) := by
  by_cases h : d.hparams.multiply_embedding_mode = "sqrt_depth" <;>
    simp [symbols_to_logits_impl, h, python_assert, notimplementederror_is_truthy,
      self_attention_stack_cached]

lemma impl_scaled_inputs_length (d : Decoder) (tm : Seq) (ids : List Nat) (st : Nat) :
    (dropout (seq_add
      (if d.hparams.multiply_embedding_mode = "sqrt_depth" then
        ([ids.getLastD 0].map (embedding_lookup d.embedding)).map
          (scale_vec (sqrt_depth_factor (channels d)))
      else [ids.getLastD 0].map (embedding_lookup d.embedding))
      [tm.getD st []])).length = 1 := by
  by_cases h : d.hparams.multiply_embedding_mode = "sqrt_depth" <;>
    simp [h, dropout_length, seq_add_length]

lemma symbols_to_logits_impl_cache_step (d : Decoder) (tm : Seq) (ids : List Nat)
    (st : Nat) (c : Cache) (L : Vec) (c' : Cache)
    (h : symbols_to_logits_impl d tm ids st c = .ok (L, c')) :
    c'.memory = c.memory ∧
    c'.encoder_decoder_attention_bias = c.encoder_decoder_attention_bias ∧
    List.Forall₂ (fun lc lc' =>
        lc'.self_keys.length = lc.self_keys.length + 1 ∧
        lc'.self_values.length = lc.self_values.length + 1)
      c.layers c'.layers := by
  rw [symbols_to_logits_impl_eq] at h
  have h2 := (Except.ok.inj h)
  have hc : c' = { c with layers :=
      (run_layers_cached (some c.memory) none
        (some c.encoder_decoder_attention_bias) c.layers
        (dropout (seq_add
          (if d.hparams.multiply_embedding_mode = "sqrt_depth" then
            ([ids.getLastD 0].map (embedding_lookup d.embedding)).map
              (scale_vec (sqrt_depth_factor (channels d)))
          else [ids.getLastD 0].map (embedding_lookup d.embedding))
          [tm.getD st []]))).2 } := congrArg Prod.snd h2.symm
  subst hc
  refine ⟨rfl, rfl, ?_⟩
  have hs := run_layers_cached_spec (some c.memory) none
    (some c.encoder_decoder_attention_bias) c.layers
    (dropout (seq_add
      (if d.hparams.multiply_embedding_mode = "sqrt_depth" then
        ([ids.getLastD 0].map (embedding_lookup d.embedding)).map
          (scale_vec (sqrt_depth_factor (channels d)))
      else [ids.getLastD 0].map (embedding_lookup d.embedding))
      [tm.getD st []]))
  rw [impl_scaled_inputs_length] at hs
  exact hs.2

lemma output_layer_singleton (d : Decoder) (o : Vec) :
    output_layer d [o] =
      [if d.hparams.share_embed_and_transform then outputs_to_logits d o
       else dense_apply d o] := by
  by_cases h : d.hparams.share_embed_and_transform <;> simp [output_layer, h]

lemma proj_length (d : Decoder) (o : Vec) (hwf : well_formed d) :
    (if d.hparams.share_embed_and_transform then outputs_to_logits d o
     else dense_apply d o).length = vocab_size d := by
  obtain ⟨-, hb, hd⟩ := hwf
  by_cases hs : d.hparams.share_embed_and_transform <;>
    by_cases ht : d.hparams.transform_with_bias <;>
    simp_all [outputs_to_logits, dense_apply, vec_add, vocab_size]

lemma symbols_to_logits_impl_logits_length (d : Decoder) (tm : Seq)
    (ids : List Nat) (st : Nat) (c : Cache) (L : Vec) (c' : Cache)
    (hwf : well_formed d)
    (h : symbols_to_logits_impl d tm ids st c = .ok (L, c')) :
    L.length = vocab_size d := by
  rw [symbols_to_logits_impl_eq] at h
  have h2 := (Except.ok.inj h)
  have hL := congrArg Prod.fst h2.symm
  have hlen : (layer_normalize
      (run_layers_cached (some c.memory) none
        (some c.encoder_decoder_attention_bias) c.layers
        (dropout (seq_add
          (if d.hparams.multiply_embedding_mode = "sqrt_depth" then
            ([ids.getLastD 0].map (embedding_lookup d.embedding)).map
              (scale_vec (sqrt_depth_factor (channels d)))
          else [ids.getLastD 0].map (embedding_lookup d.embedding))
          [tm.getD st []]))).1).length = 1 := by
    rw [layer_normalize_length,
      (run_layers_cached_spec _ _ _ _ _).1, impl_scaled_inputs_length]
  obtain ⟨o, ho⟩ := List.length_eq_one.mp hlen
  rw [ho] at hL
  rw [output_layer_singleton] at hL
  simp only [List.headD_cons] at hL
  rw [hL]
  exact proj_length d o hwf

/-! ### Generic facts about the loop combinators -/

lemma mapME_forall₂ {f : α → Except ε β} {R : α → β → Prop}
    (hf : ∀ a b, f a = .ok b → R a b) :
    ∀ {as : List α} {bs : List β}, mapME f as = .ok bs → List.Forall₂ R as bs
  | [], bs, h => by
    unfold mapME at h
    cases h
    exact .nil
  | a :: as, bs, h => by
    unfold mapME at h
    cases hfa : f a with
    | error e => rw [hfa] at h; cases h
    | ok b =>
      rw [hfa] at h
      cases hrest : mapME f as with
      | error e => rw [hrest] at h; cases h
      | ok bs' =>
        rw [hrest] at h
        cases h
        exact .cons (hf a b hfa) (mapME_forall₂ hf hrest)

lemma forall₂_mem_right {R : α → β → Prop} :
    ∀ {as : List α} {bs : List β}, List.Forall₂ R as bs →
      ∀ b ∈ bs, ∃ a ∈ as, R a b := by
  intro as bs h
  induction h with
  | nil => intro b hb; cases hb
  | cons hr _ ih =>
    intro b hb
    rcases List.mem_cons.mp hb with hb | hb
    · exact ⟨_, List.mem_cons_self .., hb ▸ hr⟩
    · obtain ⟨a, ha, har⟩ := ih b hb
      exact ⟨a, List.mem_cons_of_mem _ ha, har⟩

lemma forall₂_imp_of_mem_left {R S : α → β → Prop} :
    ∀ {as : List α} {bs : List β},
      (∀ a ∈ as, ∀ b, R a b → S a b) →
      List.Forall₂ R as bs → List.Forall₂ S as bs := by
  intro as bs h hf
  induction hf with
  | nil => exact .nil
  | cons hr _ ih =>
    exact .cons (h _ (List.mem_cons_self ..) _ hr)
      (ih (fun a ha => h a (List.mem_cons_of_mem _ ha)))

lemma forall₂_comp {R : α → β → Prop} {S : β → γ → Prop} {T : α → γ → Prop}
    (hT : ∀ a b c, R a b → S b c → T a c) :
    ∀ {as : List α} {bs : List β} {cs : List γ},
      List.Forall₂ R as bs → List.Forall₂ S bs cs → List.Forall₂ T as cs := by
  intro as bs cs h
  induction h generalizing cs with
  | nil => intro h2; cases h2; exact .nil
  | cons hr _ ih =>
    intro h2
    cases h2 with
    | cons hs htail => exact .cons (hT _ _ _ hr hs) (ih htail)

lemma whileLoopE_cond_false {cond : σ → Bool} {body : σ → Except ε σ}
    (fuel : Nat) (s : σ) (h : cond s = false) :
    whileLoopE cond body fuel s = .ok s := by
  cases fuel with
  | zero => rfl
  | succ n => simp [whileLoopE, h]

/-! ### Per-step facts about the greedy loop body -/

lemma greedy_step_item_spec (d : Decoder) (tm : Seq) (eos st : Nat)
    (it it' : ItemState) (h : greedy_step_item d tm eos st it = .ok it') :
    it'.cache.memory = it.cache.memory ∧
    it'.cache.encoder_decoder_attention_bias =
      it.cache.encoder_decoder_attention_bias ∧
    List.Forall₂ (fun lc lc' =>
        lc'.self_keys.length = lc.self_keys.length + 1 ∧
        lc'.self_values.length = lc.self_values.length + 1)
      it.cache.layers it'.cache.layers ∧
    (it.finished = true → it'.finished = true) := by
  unfold greedy_step_item at h
  split at h
  · cases h
  · rename_i r himpl
    split at h
    · cases h
    · rename_i nxt hnext
      cases h
      have hcs := symbols_to_logits_impl_cache_step d tm it.next_id st it.cache
        r.1 r.2 himpl
      exact ⟨hcs.1, hcs.2.1, hcs.2.2, fun hf => by simp [hf]⟩

lemma greedy_body_ok (d : Decoder) (tm : Seq) (eos : Nat) (s s' : GreedyState)
    (h : greedy_body d tm eos s = .ok s') :
    s'.step = s.step + 1 ∧
    mapME (greedy_step_item d tm eos s.step) s.items = .ok s'.items := by
  unfold greedy_body at h
  cases hm : mapME (greedy_step_item d tm eos s.step) s.items with
  | error e => rw [hm] at h; cases h
  | ok items => rw [hm] at h; cases h; exact ⟨rfl, rfl⟩

/-! ### Invariants of the greedy loop -/

lemma greedy_iterate_invariant (d : Decoder) (tm : Seq) (eos : Nat) :
    ∀ (t : Nat) (s0 s : GreedyState),
      iterateE (greedy_body d tm eos) t s0 = .ok s →
      s.step = s0.step + t ∧
      List.Forall₂ (fun it0 it =>
          it.cache.memory = it0.cache.memory ∧
          it.cache.encoder_decoder_attention_bias =
            it0.cache.encoder_decoder_attention_bias ∧
          List.Forall₂ (fun lc0 lc =>
              lc.self_keys.length = lc0.self_keys.length + t ∧
              lc.self_values.length = lc0.self_values.length + t)
            it0.cache.layers it.cache.layers)
        s0.items s.items
  | 0, s0, s => by
    intro h
    cases h
    refine ⟨rfl, List.forall₂_same.mpr (fun it _ => ⟨rfl, rfl, ?_⟩)⟩
    exact List.forall₂_same.mpr (fun lc _ => ⟨by simp, by simp⟩)
  | t+1, s0, s => by
    intro h
    unfold iterateE at h
    split at h
    · cases h
    · rename_i s1 hbody
      have hb := greedy_body_ok d tm eos s0 s1 hbody
      have hstep1 := mapME_forall₂ (greedy_step_item_spec d tm eos s0.step) hb.2
      have ih := greedy_iterate_invariant d tm eos t s1 s h
      refine ⟨by omega, ?_⟩
      refine forall₂_comp ?_ hstep1 ih.2
      intro a b c hab hbc
      refine ⟨hbc.1.trans hab.1, hbc.2.1.trans hab.2.1, ?_⟩
      refine forall₂_comp ?_ hab.2.2.1 hbc.2.2
      intro la lb lc hlab hlbc
      constructor
      · rw [hlbc.1, hlab.1]; omega
      · rw [hlbc.2, hlab.2]; omega

lemma greedy_iterate_finished_mono (d : Decoder) (tm : Seq) (eos : Nat) :
    ∀ (t : Nat) (s s' : GreedyState),
      iterateE (greedy_body d tm eos) t s = .ok s' →
      List.Forall₂ (fun a b => a.finished = true → b.finished = true)
        s.items s'.items
  | 0, s, s' => by
    intro h
    cases h
    exact List.forall₂_same.mpr (fun it _ hf => hf)
  | t+1, s, s' => by
    intro h
    unfold iterateE at h
    split at h
    · cases h
    · rename_i s1 hbody
      have hb := greedy_body_ok d tm eos s s1 hbody
      have hstep1 := mapME_forall₂ (greedy_step_item_spec d tm eos s.step) hb.2
      have ih := greedy_iterate_finished_mono d tm eos t s1 s' h
      refine forall₂_comp ?_ hstep1 ih
      intro a b c hab hbc hf
      exact hbc (hab.2.2.2 hf)

lemma greedy_while_step_le (d : Decoder) (tm : Seq) (eos dl : Nat) :
    ∀ (fuel : Nat) (s s' : GreedyState), s.step ≤ dl →
      whileLoopE (greedy_cond dl) (greedy_body d tm eos) fuel s = .ok s' →
      s'.step ≤ dl
  | 0, s, s' => by
    intro hs h
    cases h
    exact hs
  | fuel+1, s, s' => by
    intro hs h
    unfold whileLoopE at h
    split at h
    · rename_i hcond
      split at h
      · cases h
      · rename_i s1 hbody
        have hb := greedy_body_ok d tm eos s s1 hbody
        have hlt : s.step < dl := by
          have := (Bool.and_eq_true _ _).mp hcond
          exact of_decide_eq_true this.1
        exact greedy_while_step_le d tm eos dl fuel s1 s' (by omega) h
    · cases h
      exact hs

/-! ### argmax and top-k selection -/

lemma argmax_from_map {f : ℤ → ℤ} (hf : ∀ x y, f x < f y ↔ x < y) :
    ∀ (xs : List ℤ) (i bi : Nat) (bv : ℤ),
      argmax_from (xs.map f) i bi (f bv) = argmax_from xs i bi bv
  | [], _, _, _ => rfl
  | x :: xs, i, bi, bv => by
    simp only [List.map_cons, argmax_from]
    by_cases h : bv < x
    · rw [if_pos ((hf bv x).mpr h), if_pos h, argmax_from_map hf]
    · rw [if_neg (fun hc => h ((hf bv x).mp hc)), if_neg h, argmax_from_map hf]

lemma argmax_map {f : ℤ → ℤ} (hf : ∀ x y, f x < f y ↔ x < y) (l : List ℤ) :
    argmax (l.map f) = argmax l := by
  cases l with
  | nil => rfl
  | cons x xs =>
    simp only [List.map_cons, argmax]
    exact argmax_from_map hf xs 1 0 x

lemma argmax_from_lt : ∀ (xs : List ℤ) (i bi : Nat) (bv : ℤ), bi < i →
    argmax_from xs i bi bv < i + xs.length
  | [], i, bi, _, h => by simpa [argmax_from] using h
  | x :: xs, i, bi, bv, h => by
    simp only [argmax_from, List.length_cons]
    split
    · have := argmax_from_lt xs (i+1) i x (Nat.lt_succ_self i)
      omega
    · have := argmax_from_lt xs (i+1) bi bv (by omega)
      omega

lemma argmax_lt_length (l : List ℤ) (h : l ≠ []) : argmax l < l.length := by
  cases l with
  | nil => exact absurd rfl h
  | cons x xs =>
    simp only [argmax, List.length_cons]
    have := argmax_from_lt xs 1 0 x Nat.one_pos
    omega

lemma range_map_getD {α β : Type _} (f : α → β) (dflt : α) :
    ∀ (l : List α),
      (List.range l.length).map (fun v => f (l.getD v dflt)) = l.map f
  | [] => rfl
  | x :: xs => by
    rw [List.length_cons, List.range_succ_eq_map, List.map_cons, List.map_map]
    simp only [Function.comp_def, List.getD_cons_zero, List.getD_cons_succ]
    rw [range_map_getD f dflt xs, List.map_cons]

lemma topK_one (score : α → ℤ) (l : List α) (b : α)
    (h : l[argmax (l.map score)]? = some b) : topK score 1 l = [b] := by
  simp only [topK, h]

lemma length_penalty_zero (n : Nat) : length_penalty 0 n = 1 := by
  simp [length_penalty]

lemma beam_score_zero (h : BeamHyp) : beam_score 0 h = h.log_prob := by
  simp [beam_score, length_penalty_zero]

/-- With beam width 1 and no length penalty, the kept continuation of a
single hypothesis is exactly its argmax-of-logits continuation: the
log-softmax is the logits shifted by a constant, which argmax ignores. -/
lemma beam_top_one (lp : ℤ) (c' : Cache) (s : List Nat) (L : Vec) (hL : L ≠ []) :
    topK (beam_score 0) 1 ((List.range L.length).map (fun v =>
        (⟨s ++ [v], lp + (log_probs_of L).getD v 0, c'⟩ : BeamHyp))) =
      [⟨s ++ [argmax L], lp + (log_probs_of L).getD (argmax L) 0, c'⟩] := by
  have hscores : (((List.range L.length).map (fun v =>
      (⟨s ++ [v], lp + (log_probs_of L).getD v 0, c'⟩ : BeamHyp))).map
        (beam_score 0)) = L.map (fun x => lp + (x - logsumexp L)) := by
    rw [List.map_map]
    have h1 : ((beam_score 0) ∘ (fun v =>
        (⟨s ++ [v], lp + (log_probs_of L).getD v 0, c'⟩ : BeamHyp))) =
        fun v => lp + (log_probs_of L).getD v 0 := by
      funext v
      simp [Function.comp_def, beam_score_zero]
    rw [h1]
    have h2 : L.length = (log_probs_of L).length := by
      simp [log_probs_of]
    rw [h2, range_map_getD (fun y => lp + y) 0 (log_probs_of L)]
    simp [log_probs_of, List.map_map, Function.comp_def]
  have hidx : argmax (((List.range L.length).map (fun v =>
      (⟨s ++ [v], lp + (log_probs_of L).getD v 0, c'⟩ : BeamHyp))).map
        (beam_score 0)) = argmax L := by
    rw [hscores]
    exact argmax_map (f := fun x => lp + (x - logsumexp L))
      (by intro x y; dsimp only; constructor <;> intro h <;> linarith) L
  apply topK_one
  rw [hidx, List.getElem?_map, List.getElem?_range (argmax_lt_length L hL)]
  rfl

/-! ### One-step evaluation equations -/

lemma symbols_to_logits_impl_isOk (d : Decoder) (tm : Seq) (ids : List Nat)
    (st : Nat) (c : Cache) :
    ∃ L c', symbols_to_logits_impl d tm ids st c = .ok (L, c') :=
  ⟨_, _, symbols_to_logits_impl_eq d tm ids st c⟩

lemma symbols_to_logits_impl_ids_congr (d : Decoder) (tm : Seq)
    (ids₁ ids₂ : List Nat) (st : Nat) (c : Cache)
    (hids : ids₁.getLastD 0 = ids₂.getLastD 0) :
    symbols_to_logits_impl d tm ids₁ st c = symbols_to_logits_impl d tm ids₂ st c := by
  rw [symbols_to_logits_impl_eq, symbols_to_logits_impl_eq, hids]

lemma greedy_step_item_eq_argmax (d : Decoder) (tm : Seq) (eos st : Nat)
    (it : ItemState) (L : Vec) (c' : Cache)
    (hm : d.hparams.sampling_method = "argmax")
    (himpl : symbols_to_logits_impl d tm it.next_id st it.cache = .ok (L, c')) :
    greedy_step_item d tm eos st it =
      .ok ⟨it.finished || (argmax L == eos), [argmax L],
        it.decoded ++ [argmax L], c',
        it.log_prob + (log_probs_of L).getD (argmax L) 0⟩ := by
  unfold greedy_step_item
  rw [himpl]
  simp [next_token, hm]

lemma greedy_body_singleton (d : Decoder) (tm : Seq) (eos st : Nat)
    (it it' : ItemState)
    (hstep : greedy_step_item d tm eos st it = .ok it') :
    greedy_body d tm eos ⟨st, [it]⟩ = .ok ⟨st + 1, [it']⟩ := by
  unfold greedy_body mapME
  rw [hstep]
  simp [mapME]

lemma beam_expand_hyp_eq (d : Decoder) (tm : Seq) (st : Nat) (h : BeamHyp)
    (L : Vec) (c' : Cache)
    (himpl : symbols_to_logits_impl d tm h.seq st h.cache = .ok (L, c')) :
    beam_expand_hyp d tm st h =
      .ok ((List.range (vocab_size d)).map (fun v =>
        ⟨h.seq ++ [v], h.log_prob + (log_probs_of L).getD v 0, c'⟩)) := by
  unfold beam_expand_hyp
  rw [himpl]

lemma beam_body_singleton (d : Decoder) (tm : Seq) (eos width : Nat) (alpha : ℤ)
    (st : Nat) (h : BeamHyp) (fins cands : List BeamHyp)
    (hexp : beam_expand_hyp d tm st h = .ok cands) :
    beam_body d tm eos width alpha ⟨st, [h], fins⟩ =
      .ok ⟨st + 1,
        ((topK (beam_score alpha) width cands).partition
          (fun x => x.seq.getLastD 0 == eos)).2,
        fins ++ ((topK (beam_score alpha) width cands).partition
          (fun x => x.seq.getLastD 0 == eos)).1⟩ := by
  unfold beam_body mapME
  rw [hexp]
  simp [mapME]

lemma drop_one_concat (l : List α) (a : α) (h : l ≠ []) :
    (l ++ [a]).drop 1 = l.drop 1 ++ [a] := by
  cases l with
  | nil => exact absurd rfl h
  | cons x xs => simp

lemma tail_concat (l : List α) (a : α) (h : l ≠ []) :
    (l ++ [a]).tail = l.tail ++ [a] := by
  cases l with
  | nil => exact absurd rfl h
  | cons x xs => simp

lemma whileLoopE_step {cond : σ → Bool} {body : σ → Except ε σ}
    (fuel : Nat) (s s₁ : σ) (hc : cond s = true) (hb : body s = .ok s₁) :
    whileLoopE cond body (fuel + 1) s = whileLoopE cond body fuel s₁ := by
  simp [whileLoopE, hc, hb]

lemma partition_singleton_pos (p : α → Bool) (a : α) (h : p a = true) :
    [a].partition p = ([a], []) := by
  simp [List.partition_eq_filter_filter, h]

lemma partition_singleton_neg (p : α → Bool) (a : α) (h : p a = false) :
    [a].partition p = ([], [a]) := by
  simp [List.partition_eq_filter_filter, h]

/-- The degenerate-beam agreement invariant: a single live beam hypothesis
mirrors the single greedy batch item (same last token, same decoded
suffix, same cache, same accumulated log-probability), and then the two
loops produce the same observable output. -/
lemma greedy_beam_agree (d : Decoder) (hwf : well_formed d)
    (hm : d.hparams.sampling_method = "argmax") (tm : Seq) (eos dl : Nat) :
    ∀ (fuel step : Nat) (it : ItemState) (h : BeamHyp),
      it.finished = false → h.seq ≠ [] →
      it.next_id = [h.seq.getLastD 0] → it.decoded = h.seq.drop 1 →
      it.cache = h.cache → it.log_prob = h.log_prob →
      ∃ (gstep : Nat) (it' : ItemState) (bs : BeamState),
        whileLoopE (greedy_cond dl) (greedy_body d tm eos) fuel ⟨step, [it]⟩ =
          .ok ⟨gstep, [it']⟩ ∧
        whileLoopE (beam_cond dl) (beam_body d tm eos 1 0) fuel ⟨step, [h], []⟩ =
          .ok bs ∧
        beam_extract 1 0 bs = ([it'.decoded], [it'.log_prob])
  | 0, step, it, h => by
    intro hfin hseq hnid hdec hcache hlp
    refine ⟨step, it, ⟨step, [h], []⟩, rfl, rfl, ?_⟩
    simp [beam_extract, topK, argmax, argmax_from, hdec, hlp]
  | fuel+1, step, it, h => by
    intro hfin hseq hnid hdec hcache hlp
    by_cases hstep : step < dl
    · have hgc : greedy_cond dl ⟨step, [it]⟩ = true := by
        simp [greedy_cond, hstep, hfin]
      have hbc : beam_cond dl ⟨step, [h], []⟩ = true := by
        simp [beam_cond, hstep]
      obtain ⟨L, c', himpl⟩ := symbols_to_logits_impl_isOk d tm it.next_id step it.cache
      have himpl2 : symbols_to_logits_impl d tm h.seq step h.cache = .ok (L, c') := by
        have hcongr := symbols_to_logits_impl_ids_congr d tm h.seq it.next_id step
          h.cache (by rw [hnid]; rfl)
        rw [hcongr, ← hcache]
        exact himpl
      have hlen : L.length = vocab_size d :=
        symbols_to_logits_impl_logits_length d tm it.next_id step it.cache L c' hwf himpl
      have hLne : L ≠ [] := by
        intro h0
        rw [h0] at hlen
        have h1 := hwf.1
        simp only [List.length_nil, vocab_size] at hlen
        omega
      have hgs := greedy_step_item_eq_argmax d tm eos step it L c' hm himpl
      have hgb := greedy_body_singleton d tm eos step it _ hgs
      have hexp := beam_expand_hyp_eq d tm step h L c' himpl2
      rw [← hlen] at hexp
      have hbb := beam_body_singleton d tm eos 1 0 step h [] _ hexp
      rw [beam_top_one h.log_prob c' h.seq L hLne] at hbb
      by_cases hend : (argmax L == eos) = true
      · -- the argmax token is the end token: both sides stop
        have hp : ((h.seq ++ [argmax L]).getLastD 0 == eos) = true := by
          rw [List.getLastD_concat]
          exact hend
        rw [partition_singleton_pos (fun x : BeamHyp => x.seq.getLastD 0 == eos)
          ⟨h.seq ++ [argmax L],
            h.log_prob + (log_probs_of L).getD (argmax L) 0, c'⟩ hp] at hbb
        simp only [List.nil_append] at hbb
        refine ⟨step + 1,
          ⟨it.finished || (argmax L == eos), [argmax L], it.decoded ++ [argmax L], c',
            it.log_prob + (log_probs_of L).getD (argmax L) 0⟩,
          ⟨step + 1, [],
            [⟨h.seq ++ [argmax L],
              h.log_prob + (log_probs_of L).getD (argmax L) 0, c'⟩]⟩, ?_, ?_, ?_⟩
        · rw [whileLoopE_step fuel _ _ hgc hgb]
          exact whileLoopE_cond_false fuel _ (by simp [greedy_cond, hfin, hend])
        · rw [whileLoopE_step fuel _ _ hbc hbb]
          exact whileLoopE_cond_false fuel _ (by simp [beam_cond])
        · simp [beam_extract, topK, argmax, argmax_from,
            drop_one_concat _ _ hseq, tail_concat _ _ hseq, hdec, hlp]
      · -- not the end token: both sides keep the single live hypothesis
        have hp : ((h.seq ++ [argmax L]).getLastD 0 == eos) = false := by
          rw [List.getLastD_concat]
          exact Bool.not_eq_true _ ▸ eq_false_of_ne_true hend
        rw [partition_singleton_neg (fun x : BeamHyp => x.seq.getLastD 0 == eos)
          ⟨h.seq ++ [argmax L],
            h.log_prob + (log_probs_of L).getD (argmax L) 0, c'⟩ hp] at hbb
        simp only [List.append_nil] at hbb
        have hfin' : (⟨it.finished || (argmax L == eos), [argmax L],
            it.decoded ++ [argmax L], c',
            it.log_prob + (log_probs_of L).getD (argmax L) 0⟩ : ItemState).finished
              = false := by
          simp [hfin, hend]
        obtain ⟨gstep, it2, bs, hg, hb, hext⟩ :=
          greedy_beam_agree d hwf hm tm eos dl fuel (step + 1)
            ⟨it.finished || (argmax L == eos), [argmax L], it.decoded ++ [argmax L], c',
              it.log_prob + (log_probs_of L).getD (argmax L) 0⟩
            ⟨h.seq ++ [argmax L],
              h.log_prob + (log_probs_of L).getD (argmax L) 0, c'⟩
            hfin' (by simp) (by rw [List.getLastD_concat])
            (by simp only []; rw [drop_one_concat _ _ hseq, hdec])
            rfl (by simp only []; rw [hlp])
        refine ⟨gstep, it2, bs, ?_, ?_, hext⟩
        · rw [whileLoopE_step fuel _ _ hgc hgb]
          exact hg
        · rw [whileLoopE_step fuel _ _ hbc hbb]
          exact hb
    · have hgc : greedy_cond dl ⟨step, [it]⟩ = false := by
        simp [greedy_cond, hstep]
      have hbc : beam_cond dl ⟨step, [h], []⟩ = false := by
        simp [beam_cond, hstep]
      refine ⟨step, it, ⟨step, [h], []⟩,
        whileLoopE_cond_false _ _ hgc, whileLoopE_cond_false _ _ hbc, ?_⟩
      simp [beam_extract, topK, argmax, argmax_from, hdec, hlp]

/-! ### Concrete instances used to witness the theorems -/

/-- A value to read an `Except` result under the knowledge that it is
`.ok`; used to state witness instances without spelling out loop
results. -/
def okD (e : Except ε σ) (dflt : σ) : σ :=
  match e with
  | .ok s => s
  | .error _ => dflt

/-- A small concrete configuration: one block, decode length 2, the
default eos index 2 and bos index 1. -/
def hpEx : HParams := { default_hparams with num_blocks := 1, maximum_decode_length := 2 }

/-- A concrete decoder over a 3-token vocabulary with 2 channels. -/
def dEx : Decoder where
  hparams := hpEx
  embedding := [[1, 0], [0, 1], [1, 1]]
  affine_bias := [0, 0, 0]
  dense_weights := []
  dense_bias := []
  sampler := fun _ _ => 0

/-- Encoder output for which `dEx` emits the end token at once. -/
def m0 : Seq := [[0, 0]]

/-- Encoder output for which `dEx` never emits the end token. -/
def m1 : Seq := [[-10, 0]]

def b0 : Bias := [[0]]

def b1 : Bias := [[0]]

/-- The timing signal `greedy_decode` builds for decode length 2. -/
def tmEx : Seq := position_embedder 3 (channels dEx)

/-- The initial greedy state for a single-item batch over `m0`. -/
def gInitEx : GreedyState := ⟨0, greedy_init_items dEx [1] [m0] [b0]⟩

/-- A 2-channel-squared (4-channel) decoder for exercising the embedding
scaling: `sqrt_depth_factor 4 = 2`. -/
def dEx4 (hp : HParams) : Decoder where
  hparams := hp
  embedding := [[2, 0, 0, 0], [0, 2, 0, 0]]
  affine_bias := [0, 0]
  dense_weights := []
  dense_bias := []
  sampler := fun _ _ => 0

def hpEx4s : HParams := { default_hparams with num_blocks := 1 }

def hpEx4n : HParams := { default_hparams with num_blocks := 1, multiply_embedding_mode := "none" }

def hpEx4x : HParams := { default_hparams with num_blocks := 1, multiply_embedding_mode := "relu" }

def tmEx4 : Seq := position_embedder 3 4

def cEx4 : Cache := init_cache (dEx4 hpEx4n) [[1, 0, 0, 0]] [[0]]

/-- A configuration whose `bos_idx` is not the hard-coded start token 1. -/
def hpEx5 : HParams := { default_hparams with bos_idx := 3 }

def dEx5 : Decoder := { dEx with hparams := hpEx5 }

def srcDHEx : DatasetHParams where
  vocab_file := "vocab.src"
  bos_token := none
  eos_token := none
  vocab_share := false
  embedding_init_share := false
  processing_share := false
  data_name := "source"

/-- Target-side hyperparameters requesting vocab sharing with a custom
(bos) token, so the resolved tokens differ from the source vocab's. -/
def tgtDHEx : DatasetHParams where
  vocab_file := "vocab.tgt"
  bos_token := some "<s>"
  eos_token := none
  vocab_share := true
  embedding_init_share := false
  processing_share := false
  data_name := "target"

/-- Target-side hyperparameters requesting `embedding_init_share` without
`vocab_share`. -/
def tgtDHEx10 : DatasetHParams where
  vocab_file := "vocab.tgt"
  bos_token := none
  eos_token := none
  vocab_share := false
  embedding_init_share := true
  processing_share := false
  data_name := "target"

def hpPairEx : PairedHParams where
  source_dataset := srcDHEx
  target_dataset := tgtDHEx10

/-! ### The claims -/

lemma position_embedder_length (len chans : Nat) :
    (position_embedder len chans).length = len := by
  rw [position_embedder, List.length_map, List.length_range]

/-- Claim C8: whenever the decoder stack is called with `cache = None`
(training mode) and `decoder_self_attention_bias = None`, it fails fast
with an assertion error; when a cache is supplied, the call succeeds even
without a `decoder_self_attention_bias`, and the cross-attention bias is
the one stored in the cache (the `encoder_decoder_attention_bias`
argument is ignored). -/
theorem claim_c8 :
    (∀ (d : Decoder) (inputs : Seq) (eo : Option Seq) (edab : Option Bias),
      self_attention_stack d inputs eo none edab none =
        .error "AssertionError: decoder_self_attention_bias is None") ∧
    (∀ (d : Decoder) (inputs : Seq) (eo : Option Seq) (dsab edab : Option Bias)
        (c : Cache), ∃ r,
      self_attention_stack d inputs eo dsab edab (some c) = .ok r) ∧
    (∀ (d : Decoder) (inputs : Seq) (eo : Option Seq) (dsab edab edab' : Option Bias)
        (c : Cache),
      self_attention_stack d inputs eo dsab edab (some c) =
        self_attention_stack d inputs eo dsab edab' (some c)) :=
  ⟨fun _ _ _ _ => rfl, fun _ _ _ _ _ _ => ⟨_, rfl⟩, fun _ _ _ _ _ _ _ => rfl⟩

/-- Claim C2: for every configuration and every training call, the
returned logits sequence has exactly the length of the decoder input (no
shift), and the predicted ids are the per-position argmax of the logits
over the vocabulary axis. -/
theorem claim_c2 (d : Decoder) (encoder_output : Seq)
    (encoder_decoder_attention_bias : Bias) (decoder_input : List Nat) :
    ∃ logits,
      build_train d encoder_output encoder_decoder_attention_bias decoder_input =
        .ok (logits, logits.map argmax) ∧
      logits.length = decoder_input.length := by
  refine ⟨_, rfl, ?_⟩
  rw [output_layer_length, layer_normalize_length, run_layers_nocache_length,
    dropout_length, seq_add_length, position_embedder_length]
  have htarget : (if d.hparams.multiply_embedding_mode = "sqrt_depth" then
      (decoder_input.map (embedding_lookup d.embedding)).map
        (scale_vec (sqrt_depth_factor (channels d)))
    else decoder_input.map (embedding_lookup d.embedding)).length =
      decoder_input.length := by
    split <;> simp
  rw [htarget, Nat.min_self]

/-- Claim C10: constructing `PairedTextData` with target hyperparameters
`vocab_share = False` and `embedding_init_share = True` raises a
`ValueError` after the vocabularies are built and before any dataset is
built. -/
theorem claim_c10 (hp : PairedHParams)
    (hvs : hp.target_dataset.vocab_share = false)
    (hes : hp.target_dataset.embedding_init_share = true) :
    (paired_text_data_construct hp).2 =
      some "ValueError: embedding_init can be shared only when vocab is shared" ∧
    DataStage.dataset_made ∉ (paired_text_data_construct hp).1 := by
  simp [paired_text_data_construct, make_data, hvs, hes]

/-- Claim C10 witness: concrete paired hyperparameters with
`vocab_share = False`, `embedding_init_share = True`. -/
theorem claim_c10_witness :
    hpPairEx.target_dataset.vocab_share = false ∧
    hpPairEx.target_dataset.embedding_init_share = true ∧
    ((paired_text_data_construct hpPairEx).2 =
      some "ValueError: embedding_init can be shared only when vocab is shared" ∧
    DataStage.dataset_made ∉ (paired_text_data_construct hpPairEx).1) :=
  ⟨rfl, rfl, claim_c10 hpPairEx rfl rfl⟩

/-- Claim C5 (code bug): the inference path feeds the constant token 1 as
the start token — `tf.fill([batch_size], 1)` — regardless of the
configured `bos_idx`; with `bos_idx = 3` the start tokens differ from
`bos_idx` everywhere, and the greedy items start from token 1. -/
theorem claim_c5 :
    infer_start_tokens hpEx5 2 = [1, 1] ∧
    hpEx5.bos_idx = 3 ∧
    infer_start_tokens hpEx5 2 ≠ List.replicate 2 hpEx5.bos_idx ∧
    (greedy_init_items dEx5 (infer_start_tokens hpEx5 2) [m0, m1] [b0, b1]).map
      (fun it => it.next_id) = [[1], [1]] := by
  refine ⟨rfl, rfl, by decide, rfl⟩

/-- Claim C4 (code bug): for a `multiply_embedding_mode` other than
`sqrt_depth` the step function does not fail — Python's
`assert NotImplementedError` asserts a truthy class object and never
fires — and the scaling is silently skipped: the result is the same for
any other mode value, and differs from the `sqrt_depth` result. -/
theorem claim_c4 :
    (symbols_to_logits_impl (dEx4 hpEx4n) tmEx4 [1] 0 cEx4).isOk = true ∧
    symbols_to_logits_impl (dEx4 hpEx4n) tmEx4 [1] 0 cEx4 =
      symbols_to_logits_impl (dEx4 hpEx4x) tmEx4 [1] 0 cEx4 ∧
    symbols_to_logits_impl (dEx4 hpEx4n) tmEx4 [1] 0 cEx4 ≠
      symbols_to_logits_impl (dEx4 hpEx4s) tmEx4 [1] 0 cEx4 := by
  refine ⟨rfl, rfl, by decide⟩

/-- Claim C3: the greedy loop runs at most `decode_length` iterations
(the step counter, starting at 0 and incremented once per iteration,
never exceeds `decode_length`); the condition is evaluated before each
iteration, so from any state with all batch items finished — or any state
falsifying the condition — the loop returns at once without running the
body. -/
theorem claim_c3 (d : Decoder) (tm : Seq) (eos dl : Nat) :
    (∀ (s s' : GreedyState), s.step = 0 →
      whileLoopE (greedy_cond dl) (greedy_body d tm eos) (dl + 1) s = .ok s' →
      s'.step ≤ dl) ∧
    (∀ (fuel : Nat) (s : GreedyState),
      s.items.all (fun it => it.finished) = true →
      whileLoopE (greedy_cond dl) (greedy_body d tm eos) fuel s = .ok s) ∧
    (∀ (fuel : Nat) (s : GreedyState), greedy_cond dl s = false →
      whileLoopE (greedy_cond dl) (greedy_body d tm eos) fuel s = .ok s) := by
  refine ⟨?_, ?_, ?_⟩
  · intro s s' h0 h
    exact greedy_while_step_le d tm eos dl (dl + 1) s s' (by omega) h
  · intro fuel s hall
    exact whileLoopE_cond_false fuel s (by simp [greedy_cond, hall])
  · intro fuel s h
    exact whileLoopE_cond_false fuel s h

/-- Claim C3 witness: a concrete 2-step greedy run from the initial state
stays within the bound. -/
theorem claim_c3_witness :
    (gInitEx.step = 0 ∧
     whileLoopE (greedy_cond 2) (greedy_body dEx tmEx 2) 3 gInitEx =
       .ok (okD (whileLoopE (greedy_cond 2) (greedy_body dEx tmEx 2) 3 gInitEx)
         gInitEx)) ∧
    (okD (whileLoopE (greedy_cond 2) (greedy_body dEx tmEx 2) 3 gInitEx)
      gInitEx).step ≤ 2 :=
  ⟨⟨rfl, by decide⟩,
   (claim_c3 dEx tmEx 2 2).1 gInitEx
     (okD (whileLoopE (greedy_cond 2) (greedy_body dEx tmEx 2) 3 gInitEx) gInitEx)
     rfl (by decide)⟩

/-- Claim C6: the per-batch-item finished flag is monotone across the
greedy loop — once set it stays set at every later step (the flag is only
ever or-ed with the current equality test) — and the token choice is not
masked: two states differing only in the finished flag produce the same
next token, decoded sequence, cache and log-probability. -/
theorem claim_c6 (d : Decoder) (tm : Seq) (eos : Nat) :
    (∀ (t : Nat) (s s' : GreedyState),
      iterateE (greedy_body d tm eos) t s = .ok s' →
      List.Forall₂ (fun a b => a.finished = true → b.finished = true)
        s.items s'.items) ∧
    (∀ (st : Nat) (it : ItemState) (b : Bool) (r₁ r₂ : ItemState),
      greedy_step_item d tm eos st it = .ok r₁ →
      greedy_step_item d tm eos st { it with finished := b } = .ok r₂ →
      r₂.next_id = r₁.next_id ∧ r₂.decoded = r₁.decoded ∧
      r₂.cache = r₁.cache ∧ r₂.log_prob = r₁.log_prob) := by
  refine ⟨greedy_iterate_finished_mono d tm eos, ?_⟩
  intro st it b r₁ r₂ h₁ h₂
  unfold greedy_step_item at h₁ h₂
  dsimp only at h₂
  split at h₁
  · cases h₁
  · rename_i r himpl
    split at h₂
    · rename_i e himpl'
      rw [himpl] at himpl'
      cases himpl'
    · rename_i r' himpl'
      rw [himpl] at himpl'
      have hr : r' = r := (Except.ok.inj himpl').symm
      subst hr
      split at h₁
      · cases h₁
      · rename_i nxt hnext
        split at h₂
        · rename_i e hnext'
          rw [hnext] at hnext'
          cases hnext'
        · rename_i nxt' hnext'
          rw [hnext] at hnext'
          have hn : nxt' = nxt := (Except.ok.inj hnext').symm
          subst hn
          cases h₁
          cases h₂
          exact ⟨rfl, rfl, rfl, rfl⟩

/-- Claim C6 witness: one concrete greedy step preserves the finished
flags pointwise. -/
theorem claim_c6_witness :
    (iterateE (greedy_body dEx tmEx 2) 1 gInitEx =
      .ok (okD (iterateE (greedy_body dEx tmEx 2) 1 gInitEx) gInitEx)) ∧
    List.Forall₂ (fun a b => a.finished = true → b.finished = true)
      gInitEx.items
      (okD (iterateE (greedy_body dEx tmEx 2) 1 gInitEx) gInitEx).items :=
  ⟨by decide,
   (claim_c6 dEx tmEx 2).1 1 gInitEx
     (okD (iterateE (greedy_body dEx tmEx 2) 1 gInitEx) gInitEx) (by decide)⟩

/-- Claim C1: `_init_cache` stores the memory and the cross-attention
bias and gives every layer empty self-attention key/value sequences; the
cache threaded through the greedy loop then has, after `t` completed
steps (equivalently, when step `t` begins — and `t + 1` of them after
step `t` completes), self-attention key/value sequences of length exactly
`t` in every layer, while the `memory` and
`encoder_decoder_attention_bias` entries never change. -/
theorem claim_c1 (d : Decoder) (tm : Seq) (eos : Nat)
    (start_tokens : List Nat) (memory : List Seq) (encdec_bias : List Bias) :
    (∀ (m : Seq) (b : Bias),
      (init_cache d m b).memory = m ∧
      (init_cache d m b).encoder_decoder_attention_bias = b ∧
      ∀ lc ∈ (init_cache d m b).layers, lc.self_keys = [] ∧ lc.self_values = []) ∧
    (∀ (t : Nat) (s : GreedyState),
      iterateE (greedy_body d tm eos) t
        ⟨0, greedy_init_items d start_tokens memory encdec_bias⟩ = .ok s →
      s.step = t ∧
      List.Forall₂ (fun it0 it =>
          it.cache.memory = it0.cache.memory ∧
          it.cache.encoder_decoder_attention_bias =
            it0.cache.encoder_decoder_attention_bias ∧
          ∀ lc ∈ it.cache.layers,
            lc.self_keys.length = t ∧ lc.self_values.length = t)
        (greedy_init_items d start_tokens memory encdec_bias) s.items) := by
  constructor
  · intro m b
    refine ⟨rfl, rfl, ?_⟩
    intro lc hlc
    have h := List.eq_of_mem_replicate hlc
    rw [h]
    exact ⟨rfl, rfl⟩
  · intro t s hiter
    have hinv := greedy_iterate_invariant d tm eos t _ s hiter
    refine ⟨by simpa using hinv.1, ?_⟩
    have hzero : ∀ it0 ∈ greedy_init_items d start_tokens memory encdec_bias,
        ∀ lc0 ∈ it0.cache.layers, lc0.self_keys = [] ∧ lc0.self_values = [] := by
      intro it0 h0 lc0 hlc
      unfold greedy_init_items at h0
      obtain ⟨p, hp, hit⟩ := List.mem_map.mp h0
      rw [← hit] at hlc
      simp only [init_cache] at hlc
      have h := List.eq_of_mem_replicate hlc
      rw [h]
      exact ⟨rfl, rfl⟩
    refine forall₂_imp_of_mem_left ?_ hinv.2
    intro it0 h0 it hrel
    refine ⟨hrel.1, hrel.2.1, ?_⟩
    intro lc hlc
    obtain ⟨lc0, hlc0, hg⟩ := forall₂_mem_right hrel.2.2 lc hlc
    have hz := hzero it0 h0 lc0 hlc0
    constructor
    · rw [hg.1, hz.1]
      simp
    · rw [hg.2, hz.2]
      simp

/-- Claim C1 witness: the concrete initial state (zero completed steps)
satisfies the invariant with `t = 0`. -/
theorem claim_c1_witness :
    (iterateE (greedy_body dEx tmEx 2) 0 gInitEx = .ok gInitEx) ∧
    (gInitEx.step = 0 ∧
     List.Forall₂ (fun it0 it =>
        it.cache.memory = it0.cache.memory ∧
        it.cache.encoder_decoder_attention_bias =
          it0.cache.encoder_decoder_attention_bias ∧
        ∀ lc ∈ it.cache.layers,
          lc.self_keys.length = 0 ∧ lc.self_values.length = 0)
      (greedy_init_items dEx [1] [m0] [b0]) gInitEx.items) :=
  ⟨rfl, (claim_c1 dEx tmEx 2 [1] [m0] [b0]).2 0 gInitEx rfl⟩

/-- Claim C9: under `vocab_share`, `make_vocab` returns the very same
source vocabulary object as the target vocabulary (object identity,
modelled by the allocation identifier) exactly when the resolved target
bos/eos tokens equal the source vocab's; when they differ it builds a
distinct `Vocab` from the source vocab file with the target's tokens. -/
theorem claim_c9 (ctr : Nat) (src_hparams tgt_hparams : DatasetHParams)
    (hshare : tgt_hparams.vocab_share = true) :
    ((make_vocab ctr src_hparams tgt_hparams).1.2.uid =
        (make_vocab ctr src_hparams tgt_hparams).1.1.uid ↔
      (resolved_tgt_bos src_hparams tgt_hparams =
          (make_vocab ctr src_hparams tgt_hparams).1.1.bos_token ∧
        resolved_tgt_eos src_hparams tgt_hparams =
          (make_vocab ctr src_hparams tgt_hparams).1.1.eos_token)) ∧
    ((resolved_tgt_bos src_hparams tgt_hparams =
          (make_vocab ctr src_hparams tgt_hparams).1.1.bos_token ∧
        resolved_tgt_eos src_hparams tgt_hparams =
          (make_vocab ctr src_hparams tgt_hparams).1.1.eos_token) →
      (make_vocab ctr src_hparams tgt_hparams).1.2 =
        (make_vocab ctr src_hparams tgt_hparams).1.1) ∧
    (¬(resolved_tgt_bos src_hparams tgt_hparams =
          (make_vocab ctr src_hparams tgt_hparams).1.1.bos_token ∧
        resolved_tgt_eos src_hparams tgt_hparams =
          (make_vocab ctr src_hparams tgt_hparams).1.1.eos_token) →
      (make_vocab ctr src_hparams tgt_hparams).1.2.vocab_file =
        src_hparams.vocab_file ∧
      (make_vocab ctr src_hparams tgt_hparams).1.2.bos_token =
        resolved_tgt_bos src_hparams tgt_hparams ∧
      (make_vocab ctr src_hparams tgt_hparams).1.2.eos_token =
        resolved_tgt_eos src_hparams tgt_hparams ∧
      (make_vocab ctr src_hparams tgt_hparams).1.2.uid ≠
        (make_vocab ctr src_hparams tgt_hparams).1.1.uid) := by
  by_cases hmatch : resolved_tgt_bos src_hparams tgt_hparams =
      default_string src_hparams.bos_token bos_token_default ∧
    resolved_tgt_eos src_hparams tgt_hparams =
      default_string src_hparams.eos_token eos_token_default
  · simp [make_vocab, mono_make_vocab, vocab_new, hshare, hmatch]
  · simp [make_vocab, mono_make_vocab, vocab_new, hshare, hmatch]

/-- Claim C9 witness: concrete shared-vocab hyperparameters whose target
bos token differs from the source vocab's, so a distinct instance is
built. -/
theorem claim_c9_witness :
    tgtDHEx.vocab_share = true ∧
    (((make_vocab 0 srcDHEx tgtDHEx).1.2.uid =
        (make_vocab 0 srcDHEx tgtDHEx).1.1.uid ↔
      (resolved_tgt_bos srcDHEx tgtDHEx =
          (make_vocab 0 srcDHEx tgtDHEx).1.1.bos_token ∧
        resolved_tgt_eos srcDHEx tgtDHEx =
          (make_vocab 0 srcDHEx tgtDHEx).1.1.eos_token)) ∧
    ((resolved_tgt_bos srcDHEx tgtDHEx =
          (make_vocab 0 srcDHEx tgtDHEx).1.1.bos_token ∧
        resolved_tgt_eos srcDHEx tgtDHEx =
          (make_vocab 0 srcDHEx tgtDHEx).1.1.eos_token) →
      (make_vocab 0 srcDHEx tgtDHEx).1.2 =
        (make_vocab 0 srcDHEx tgtDHEx).1.1) ∧
    (¬(resolved_tgt_bos srcDHEx tgtDHEx =
          (make_vocab 0 srcDHEx tgtDHEx).1.1.bos_token ∧
        resolved_tgt_eos srcDHEx tgtDHEx =
          (make_vocab 0 srcDHEx tgtDHEx).1.1.eos_token) →
      (make_vocab 0 srcDHEx tgtDHEx).1.2.vocab_file = srcDHEx.vocab_file ∧
      (make_vocab 0 srcDHEx tgtDHEx).1.2.bos_token =
        resolved_tgt_bos srcDHEx tgtDHEx ∧
      (make_vocab 0 srcDHEx tgtDHEx).1.2.eos_token =
        resolved_tgt_eos srcDHEx tgtDHEx ∧
      (make_vocab 0 srcDHEx tgtDHEx).1.2.uid ≠
        (make_vocab 0 srcDHEx tgtDHEx).1.1.uid)) :=
  ⟨rfl, claim_c9 0 srcDHEx tgtDHEx rfl⟩

/-- Claim C7, corrected: with `beam_width = 1` and `alpha = 0`, beam
decoding produces the same token sequences and log-probabilities as
argmax greedy decoding for every single-item batch.  (For batches of two
or more items whose end-token times differ, the outputs differ — see the
counterexample — because the greedy loop keeps extending items that have
already finished until the whole batch finishes, while beam search
retires a finished hypothesis immediately.) -/
theorem claim_c7 (d : Decoder) (hwf : well_formed d)
    (hm : d.hparams.sampling_method = "argmax")
    (start eos dl : Nat) (m : Seq) (b : Bias) :
    beam_decode_batch d [start] eos dl 1 0 [m] [b] =
      greedy_decode d [start] eos dl [m] [b] := by
  obtain ⟨gstep, it', bs, hg, hb, hext⟩ :=
    greedy_beam_agree d hwf hm (position_embedder (dl + 1) (channels d)) eos dl
      (dl + 1) 0 ⟨false, [start], [], init_cache d m b, 0⟩
      ⟨[start], 0, init_cache d m b⟩ rfl (by simp) rfl rfl rfl rfl
  have hinit : greedy_init_items d [start] [m] [b] =
      [⟨false, [start], [], init_cache d m b, 0⟩] := rfl
  have hzip : (([start].zip [m]).zip [b]) = [((start, m), b)] := rfl
  simp only [beam_decode_batch, greedy_decode, beam_decode_item, hzip, hinit, mapME]
  rw [hg, hb]
  simp [hext]

/-- Claim C7 counterexample: a two-item batch in which one item emits the
end token at step 0 while the other never does.  The greedy loop keeps
appending argmax tokens to the finished item until the bound, so its
output sequence is `[2, 2]`, while degenerate beam search retires the
hypothesis at the end token and outputs `[2]`. -/
theorem claim_c7_counterexample :
    beam_decode_batch dEx [1, 1] 2 2 1 0 [m0, m1] [b0, b1] ≠
      greedy_decode dEx [1, 1] 2 2 [m0, m1] [b0, b1] := by decide

lemma dEx_wf : well_formed dEx :=
  ⟨by decide, fun _ _ => by decide, fun h => absurd h (by decide)⟩

/-- Claim C7 witness: a concrete single-item batch on which the amended
equivalence is instantiated. -/
theorem claim_c7_witness :
    well_formed dEx ∧ dEx.hparams.sampling_method = "argmax" ∧
    beam_decode_batch dEx [1] 2 2 1 0 [m0] [b0] =
      greedy_decode dEx [1] 2 2 [m0] [b0] :=
  ⟨dEx_wf, rfl, claim_c7 dEx dEx_wf rfl 1 2 2 m0 b0⟩

end Texar
